import Mathlib

/-!
Verification development for the media-proxy service (Go).

Go strings are modelled as `List Char`; Go `int`/`int64` as `Int` (with the
64-bit range enforced where the source's `strconv` parsers reject
out-of-range input); Go `float64` transformation parameters as `ℚ` (none of
the verified properties depend on floating-point rounding).  External
collaborators that the source calls but does not implement (stdlib
`encoding/base64`, `crypto/hmac`, `net/url`, `mime`, the wildcard matcher
and the float parser) are abstracted as function parameters collected in
`Ext`; every theorem quantifies over them unless a concrete instance is
needed for a counterexample, in which case the instance is consistent with
the documented behaviour of the real collaborator.
-/

namespace MediaProxy

/-- Go string, modelled at rune (character) level. -/
abbrev Str := List Char

/-- Go `strings.Split(s, sep)` for a one-character separator: always returns
at least one (possibly empty) piece. -/
def goSplit (sep : Char) : Str → List Str
  | [] => [[]]
  | c :: cs =>
    match goSplit sep cs with
    | [] => [[]]
    | p :: ps => if c = sep then [] :: p :: ps else (c :: p) :: ps

/-- Go `strings.Trim(s, cutset)` for a one-character cutset. -/
def goTrim (t : Char) (s : Str) : Str :=
  ((s.dropWhile (fun c => c = t)).reverse.dropWhile (fun c => c = t)).reverse

/-- Go `strings.Contains(s, string(t))` for a one-character pattern. -/
def containsChar (t : Char) (s : Str) : Bool :=
  s.any (fun c => c = t)

/-- Go `strings.Contains(s, pat)`: `pat` occurs as a contiguous run in `s`. -/
def containsSeq (pat : Str) : Str → Bool
  | [] => pat.isEmpty
  | c :: cs => pat.isPrefixOf (c :: cs) || containsSeq pat cs

/-- Go `strings.SplitN(s, string(sep), 2)`: split at the first occurrence of
`sep` only; `none` when `sep` does not occur (the Go result then has one
element, which the source treats as malformed). -/
def splitFirst (sep : Char) : Str → Option (Str × Str)
  | [] => none
  | c :: cs =>
    if c = sep then some ([], cs)
    else
      match splitFirst sep cs with
      | none => none
      | some (a, b) => some (c :: a, b)

/-- Value of a nonempty all-digit string, in base 10. -/
def digitsVal (s : Str) : Option Nat :=
  if s = [] then none
  else if s.all Char.isDigit then
    some (s.foldl (fun n c => n * 10 + (c.toNat - 48)) 0)
  else none

/-- Go `strconv.Atoi` / `strconv.ParseInt(s, 10, 64)`: optional sign, decimal
digits, error outside the int64 range (the source treats range errors the
same as syntax errors: `err != nil`). -/
def goParseInt (s : Str) : Option Int :=
  match s with
  | '-' :: rest =>
    (digitsVal rest).bind fun n => if n ≤ 2 ^ 63 then some (-(n : Int)) else none
  | '+' :: rest =>
    (digitsVal rest).bind fun n => if n ≤ 2 ^ 63 - 1 then some ((n : Int)) else none
  | _ =>
    (digitsVal s).bind fun n => if n ≤ 2 ^ 63 - 1 then some ((n : Int)) else none

/-- Go `fmt.Sscanf(s, "%d", &x)`: reads a leading decimal integer and ignores
any trailing input. -/
def goSscanInt (s : Str) : Option Int :=
  match s with
  | '-' :: rest =>
    (digitsVal (rest.takeWhile Char.isDigit)).bind fun n =>
      if n ≤ 2 ^ 63 then some (-(n : Int)) else none
  | '+' :: rest =>
    (digitsVal (rest.takeWhile Char.isDigit)).bind fun n =>
      if n ≤ 2 ^ 63 - 1 then some ((n : Int)) else none
  | _ =>
    (digitsVal (s.takeWhile Char.isDigit)).bind fun n =>
      if n ≤ 2 ^ 63 - 1 then some ((n : Int)) else none

/-- Go `strconv.Itoa` / decimal formatting of an `int`. -/
def intToStr (i : Int) : Str := (toString i).data

/-- Go `strconv.FormatBool`. -/
def boolToStr (b : Bool) : Str := if b then "true".data else "false".data

/-- Textual form of the `scale` parameter in cache keys.  The source uses
`strconv.FormatFloat(scale, 'f', -1, 64)`, a value-determined rendering of
the float; it is modelled by the rational's canonical textual form (also
value-determined).  No verified property depends on the exact digits. -/
def ratToStr (q : ℚ) : Str := (toString q).data

/-- Go `len(s)`: the UTF-8 byte length of the string. -/
def goLen (s : Str) : Nat := (s.map Char.utf8Size).sum

/-- Character class admitted by `sanitizeLocation` (validation package):
`[A-Z a-z 0-9 / - _ .]`. -/
def allowedLocChar (r : Char) : Bool :=
  ('a' ≤ r && r ≤ 'z') || ('A' ≤ r && r ≤ 'Z') || ('0' ≤ r && r ≤ '9') ||
    r = '/' || r = '-' || r = '_' || r = '.'

/-- Embedding of `sanitizeLocation` (validation package): length in
`[1, 512]` bytes, no `".."` and no backslash, conservative charset, then
leading `'/'` stripped.  `none` models the error return. -/
def sanitizeLocation (loc : Str) : Option Str :=
  if goLen loc = 0 ∨ 512 < goLen loc then none
  else if containsSeq ['.', '.'] loc || containsChar '\\' loc then none
  else if ¬ loc.all allowedLocChar then none
  else some (loc.dropWhile (fun c => c = '/'))

/-- Result of `net/url.Parse` restricted to the fields the source reads. -/
structure UrlParts where
  scheme : Str
  hostname : Str
deriving DecidableEq, Repr

/-- External collaborators of the core (Go stdlib and third-party packages
that are out of scope per the spec), abstracted as functions. -/
structure Ext where
  /-- `strconv.ParseFloat(s, 64)`, rationally valued. -/
  parseFloatQ : Str → Option ℚ
  /-- `base64.URLEncoding.DecodeString` (URL-safe alphabet, padding). -/
  b64decode : Str → Option Str
  /-- `compareHmacForMessage message signature secret`: HMAC-SHA256 of the
  message under the secret, hex-decoded signature, constant-time equality. -/
  hmacEq : Str → Str → Str → Bool
  /-- `net/url.Parse`, `none` on parse error. -/
  parseURL : Str → Option UrlParts
  /-- `wildcard.Match pattern hostname` (IGLOU-EU/go-wildcard). -/
  wildcardMatch : Str → Str → Bool
  /-- `mime.ParseMediaType`, reduced to the media type, `none` on error. -/
  parseMediaType : Str → Option Str
  /-- Deadline parsing of `handleMultipartUploadInit`: RFC3339, else a
  leading `Sscanf` Unix timestamp, as a Unix-seconds instant. -/
  parseDeadline : Str → Option Int

/-- Embedding of `pool.ValidateHostname`: empty allow-list admits everything
with empty hostname; scheme must be http or https; exact hostname match
first, then wildcard patterns. -/
def validateHostname (ext : Ext) (u : UrlParts) (origins : List Str) : Bool × Str :=
  if origins = [] then (true, [])
  else if u.scheme ≠ "http".data ∧ u.scheme ≠ "https".data then (false, [])
  else if origins.any (fun o => o = u.hostname) then (true, u.hostname)
  else if origins.any (fun o => containsChar '*' o && ext.wildcardMatch o u.hostname) then
    (true, u.hostname)
  else (false, [])

/-- Embedding of `pool.ValidateUrl`: parse (the per-process parse cache only
memoises `url.Parse` results and does not change the outcome), then
`ValidateHostname`. -/
def validateUrl (ext : Ext) (urlStr : Str) (origins : List Str) : Bool × Str :=
  match ext.parseURL urlStr with
  | none => (false, [])
  | some u => validateHostname ext u origins

/-- Claim C9 as stated: validation allows a URL iff the list is empty, or the
URL parses with scheme http/https and its hostname matches exactly or by
wildcard; and an unparsable URL is always denied. -/
def c9Claim (ext : Ext) : Prop :=
  ∀ urlStr origins,
    ((validateUrl ext urlStr origins).1 = true ↔
      (origins = [] ∨
        ∃ u, ext.parseURL urlStr = some u ∧
          (u.scheme = "http".data ∨ u.scheme = "https".data) ∧
          (u.hostname ∈ origins ∨
            ∃ o ∈ origins, containsChar '*' o = true ∧ ext.wildcardMatch o u.hostname = true))) ∧
    (ext.parseURL urlStr = none → (validateUrl ext urlStr origins).1 = false)

/-- Embedding of `validation.ImageContext`: the parsed, validated inputs of a
read request. -/
structure ImageContext where
  url : Str
  quality : Int
  width : Int
  height : Int
  scale : ℚ
  interpolation : Int
  webp : Bool
  framePosition : Str
  hostname : Str
  customObjectKey : Str
deriving DecidableEq, Repr

/-- Embedding of `cacheKey` (routes package): the request fingerprint
`source_id;quality=Q;width=W;height=H;scale=S;interpolation=I;webp=B`.
Note that `framePosition` is not part of the key. -/
def cacheKey (url : Str) (p : ImageContext) : Str :=
  url ++ ";quality=".data ++ intToStr p.quality ++
    ";width=".data ++ intToStr p.width ++
    ";height=".data ++ intToStr p.height ++
    ";scale=".data ++ ratToStr p.scale ++
    ";interpolation=".data ++ intToStr p.interpolation ++
    ";webp=".data ++ boolToStr p.webp

/-- Embedding of `validation.PathParams`. -/
structure PathParams where
  quality : Int
  width : Int
  height : Int
  scale : ℚ
  interpolation : Int
  webp : Bool
  framePosition : Str
  signature : Str
  token : Str
  encodedURL : Str
  location : Str
deriving DecidableEq, Repr

/-- Defaults installed at the top of `ParsePathParams`: quality 100, no
resize, no rescale, Lanczos3 (= 5), no WebP, first frame. -/
def defaultPathParams : PathParams :=
  { quality := 100, width := 0, height := 0, scale := 0, interpolation := 5,
    webp := false, framePosition := "first".data, signature := [], token := [],
    encodedURL := [], location := [] }

/-- One iteration of the parameter loop of `ParsePathParams`: a bare `webp`
flag, else a `key:value` segment dispatched by key, with out-of-range or
unparsable numerics silently skipped. -/
def applyPart (ext : Ext) (p : PathParams) (part : Str) : PathParams :=
  if part = "webp".data then { p with webp := true }
  else if ¬ containsChar ':' part then p
  else
    match splitFirst ':' part with
    | none => p
    | some (key, value) =>
      if key = "q".data ∨ key = "quality".data then
        match goParseInt value with
        | some q => if 1 ≤ q ∧ q ≤ 100 then { p with quality := q } else p
        | none => p
      else if key = "w".data ∨ key = "width".data then
        match goParseInt value with
        | some w => if 0 < w then { p with width := w } else p
        | none => p
      else if key = "h".data ∨ key = "height".data then
        match goParseInt value with
        | some h => if 0 < h then { p with height := h } else p
        | none => p
      else if key = "s".data ∨ key = "scale".data then
        match ext.parseFloatQ value with
        | some s => if 0 < s ∧ s ≤ 1 then { p with scale := s } else p
        | none => p
      else if key = "i".data ∨ key = "interpolation".data then
        match goParseInt value with
        | some i => if 0 ≤ i ∧ i ≤ 5 then { p with interpolation := i } else p
        | none => p
      else if key = "sig".data ∨ key = "signature".data then { p with signature := value }
      else if key = "fp".data ∨ key = "framePosition".data then { p with framePosition := value }
      else if key = "t".data ∨ key = "token".data then { p with token := value }
      else if key = "loc".data ∨ key = "location".data then { p with location := value }
      else p

/-- Embedding of `validation.ParsePathParams`: trim and split the wildcard
path on `/`; a trailing segment that has no `:` and is not `webp` is the
base64url-encoded source URL; the remaining segments feed the parameter
loop. -/
def parsePathParams (ext : Ext) (pathParams : Str) : Option PathParams :=
  let parts := goSplit '/' (goTrim '/' pathParams)
  match parts.getLast? with
  | none => none
  | some lastPart =>
    if ¬ containsChar ':' lastPart = true ∧ lastPart ≠ "webp".data then
      some (parts.dropLast.foldl (applyPart ext)
        { defaultPathParams with encodedURL := lastPart })
    else
      some (parts.foldl (applyPart ext) defaultPathParams)

/-- Process configuration (subset read by the embedded functions). -/
structure Config where
  hmacKey : Str
  token : Str
  webp : Bool
  allowedOrigins : List Str
  uploadingEnabled : Bool
  maxVideoSize : Int
  chunkSize : Int
deriving Repr

/-- Embedding of `validation.ProcessImageContextFromPath` (path-form read
admission).  The error value is the HTTP status the handler responds with
(400 or 403). -/
def processImageContextFromPath (ext : Ext) (cfg : Config) (pathParams : Str) :
    Except Nat ImageContext :=
  match parsePathParams ext pathParams with
  | none => .error 400
  | some params =>
    let urlDec : Except Nat Str :=
      if params.encodedURL = [] then .ok []
      else
        match ext.b64decode params.encodedURL with
        | none => .error 400
        | some u => .ok u
    match urlDec with
    | .error e => .error e
    | .ok urlParam =>
      let locStep : Except Nat Str :=
        if params.location ≠ [] then
          if cfg.hmacKey = [] ∨ params.signature = [] then .error 403
          else
            match ext.b64decode params.location with
            | none => .error 400
            | some dec =>
              match sanitizeLocation dec with
              | none => .error 400
              | some san =>
                let signedMsg := if urlParam ≠ [] then urlParam ++ '|' :: san else san
                if ext.hmacEq signedMsg params.signature cfg.hmacKey then .ok san
                else .error 403
        else if params.signature ≠ [] then
          if cfg.hmacKey = [] then .error 403
          else if urlParam = [] then .error 400
          else if ext.hmacEq urlParam params.signature cfg.hmacKey then .ok []
          else .error 403
        else if urlParam = [] then .error 400
        else .ok []
      match locStep with
      | .error e => .error e
      | .ok customObjectKey =>
        let hostStep : Except Nat Str :=
          if urlParam ≠ [] then
            let vr := validateUrl ext urlParam cfg.allowedOrigins
            if vr.1 then .ok vr.2 else .error 403
          else .ok []
        match hostStep with
        | .error e => .error e
        | .ok hostname =>
          if params.quality < 1 ∨ 100 < params.quality then .error 400
          else if 0 < params.width ∧ 0 < params.height ∧
              (params.width < 1 ∨ params.height < 1) then .error 400
          else if params.scale < 0 ∨ 1 < params.scale then .error 400
          else .ok
            { url := urlParam, quality := params.quality, width := params.width,
              height := params.height, scale := params.scale,
              interpolation := params.interpolation,
              webp := params.webp || cfg.webp,
              framePosition := params.framePosition, hostname := hostname,
              customObjectKey := customObjectKey }

/-- Raw query-string inputs of the query-form read admission; `[]` models an
absent parameter (Fiber's `Query` returns the empty string then). -/
structure QueryBag where
  url : Str
  signature : Str
  location : Str
  quality : Str
  interpolation : Str
  width : Str
  height : Str
  scale : Str
  webp : Str
  framePosition : Str
deriving Repr

/-- Fiber `c.QueryInt(key, default)`: `strconv.Atoi` of the raw value,
default on error. -/
def queryInt (raw : Str) (d : Int) : Int :=
  match goParseInt raw with
  | some v => v
  | none => d

/-- Fiber `c.QueryFloat(key, default)`. -/
def queryFloat (ext : Ext) (raw : Str) (d : ℚ) : ℚ :=
  match ext.parseFloatQ raw with
  | some v => v
  | none => d

/-- Fiber `c.QueryBool(key, default)`: `strconv.ParseBool` literals, default
on error. -/
def queryBool (raw : Str) (d : Bool) : Bool :=
  if raw ∈ (["1", "t", "T", "TRUE", "true", "True"].map String.data) then true
  else if raw ∈ (["0", "f", "F", "FALSE", "false", "False"].map String.data) then false
  else d

/-- Embedding of `validation.ProcessImageContext` (query-form read
admission). -/
def processImageContext (ext : Ext) (cfg : Config) (q : QueryBag) :
    Except Nat ImageContext :=
  if q.url = [] then .error 400
  else
    let locStep : Except Nat Str :=
      if q.location ≠ [] then
        if cfg.hmacKey = [] ∨ q.signature = [] then .error 403
        else
          match ext.b64decode q.location with
          | none => .error 400
          | some dec =>
            match sanitizeLocation dec with
            | none => .error 400
            | some san =>
              if ext.hmacEq (q.url ++ '|' :: san) q.signature cfg.hmacKey then .ok san
              else .error 403
      else if q.signature ≠ [] then
        if cfg.hmacKey = [] then .error 403
        else if ext.hmacEq q.url q.signature cfg.hmacKey then .ok []
        else .error 403
      else .ok []
    match locStep with
    | .error e => .error e
    | .ok customObjectKey =>
      let vr := validateUrl ext q.url cfg.allowedOrigins
      if ¬ vr.1 = true then .error 403
      else
        let quality := queryInt q.quality 100
        if quality < 1 ∨ 100 < quality then .error 400
        else
          let interpolation := queryInt q.interpolation 5
          if interpolation < 0 ∨ 5 < interpolation then .error 400
          else
            let width := queryInt q.width 0
            let height := queryInt q.height 0
            if 0 < width ∧ 0 < height ∧ (width < 1 ∨ height < 1) then .error 400
            else
              let scale := queryFloat ext q.scale 0
              if scale < 0 ∨ 1 < scale then .error 400
              else .ok
                { url := q.url, quality := quality, width := width, height := height,
                  scale := scale, interpolation := interpolation,
                  webp := queryBool q.webp cfg.webp,
                  framePosition :=
                    if q.framePosition = [] then "first".data else q.framePosition,
                  hostname := vr.2, customObjectKey := customObjectKey }

/-- Embedding of `validation.ValidateVideoUpload` (single-shot video upload
admission): uploading enabled, HMAC key configured (error 500 if not),
future deadline, base64url location, sanitization, then the
`deadline|location` signature.  The success value is the sanitized
location. -/
def validateVideoUpload (ext : Ext) (cfg : Config) (now : Int)
    (deadlineStr locEnc sig : Str) : Except Nat Str :=
  if ¬ cfg.uploadingEnabled = true then .error 403
  else if cfg.hmacKey = [] then .error 500
  else if deadlineStr = [] then .error 400
  else
    match goParseInt deadlineStr with
    | none => .error 400
    | some deadline =>
      if deadline < now then .error 403
      else if locEnc = [] then .error 400
      else
        match ext.b64decode locEnc with
        | none => .error 400
        | some dec =>
          match sanitizeLocation dec with
          | none => .error 400
          | some san =>
            if sig = [] then .error 400
            else if ext.hmacEq (deadlineStr ++ '|' :: san) sig cfg.hmacKey then .ok san
            else .error 403

/-- Embedding of `parseRangeHeader` (routes package).  Success carries
`(start, end, hasRange)`; `end = -1` means "to the end"; a negative `start`
encodes a suffix range `-N`.  `Except Unit` models the error return. -/
def parseRangeHeader (h : Str) : Except Unit (Int × Int × Bool) :=
  if h = [] then .ok (0, -1, false)
  else if ¬ ("bytes=".data.isPrefixOf h) = true then .error ()
  else
    let spec := h.drop 6
    if containsChar ',' spec then .error ()
    else
      match splitFirst '-' spec with
      | none => .error ()
      | some (a, b) =>
        if a = [] then
          match goParseInt b with
          | none => .error ()
          | some n => .ok (-n, -1, true)
        else
          match goParseInt a with
          | none => .error ()
          | some start =>
            if b = [] then .ok (start, -1, true)
            else
              match goParseInt b with
              | none => .error ()
              | some e => .ok (start, e, true)

/-- Bytes actually delivered by the S3 `GetObject` stream of
`processVideoProxy`, as a function of the parsed range.  For a suffix range
the source sets no range at all ("we'll handle after Stat" — it never
does), so the whole object is streamed.  `SetRange(start, -1)` follows
minio-go: `start = 0` selects the last byte (`bytes=-1`), a positive
`start` makes `SetRange` return an error the source discards, leaving the
request un-ranged.  `SetRange(start, end)` with `0 ≤ start ≤ end` selects
the inclusive slice. -/
def streamFor (obj : List Nat) (start e : Int) (hasRange : Bool) : List Nat :=
  if ¬ hasRange = true then obj
  else if start < 0 then obj
  else if e = -1 then
    if start = 0 then obj.drop (obj.length - 1) else obj
  else if 0 < start ∧ e = 0 then obj.drop start.toNat
  else if start ≤ e then (obj.drop start.toNat).take (e - start + 1).toNat
  else obj

/-- Response of the streaming proxy, reduced to the fields the claims are
about.  `body` is only meaningful for 200/206 (error bodies are short
texts). -/
structure VResponse where
  status : Nat
  contentLength : Option Int
  contentRange : Option Str
  body : List Nat
deriving DecidableEq, Repr

/-- Value of the `Content-Range` header: `bytes start-end/total`. -/
def contentRangeStr (start e total : Int) : Str :=
  "bytes ".data ++ intToStr start ++ '-' :: intToStr e ++ '/' :: intToStr total

/-- Embedding of the object-store branch of `processVideoProxy` for an
object of known content `obj` (so `Stat` reports size `obj.length`;
`statOk = false` models a failing `Stat`, surfaced as 500).  Mirrors the
source: parse the range (416 on error), fetch with the options of
`streamFor`, then recompute `start`/`end` — translating a suffix range
after `Stat` — and emit 206 with `Content-Length`/`Content-Range`, 416 when
unsatisfiable, or 200 with the full length when no range was requested. -/
def processVideoProxyS3 (obj : List Nat) (statOk : Bool) (rangeHeader : Str) :
    VResponse :=
  match parseRangeHeader rangeHeader with
  | .error _ => { status := 416, contentLength := none, contentRange := none, body := [] }
  | .ok (start0, end0, hasRange) =>
    let stream := streamFor obj start0 end0 hasRange
    if ¬ statOk = true then
      { status := 500, contentLength := none, contentRange := none, body := [] }
    else
      let size : Int := obj.length
      if rangeHeader ≠ [] ∧ hasRange = true then
        let start := if start0 < 0 then (if size < -start0 then 0 else size + start0) else start0
        let e := if start0 < 0 then size - 1 else (if end0 = -1 then size - 1 else end0)
        if start < 0 ∨ size ≤ start ∨ e < start then
          { status := 416, contentLength := none, contentRange := none, body := [] }
        else
          { status := 206, contentLength := some (e - start + 1),
            contentRange := some (contentRangeStr start e size), body := stream }
      else
        { status := 200, contentLength := some size, contentRange := none,
          body := stream }

/-- DefaultChunkSize of the multi-part coordinator: 80 MiB. -/
def defaultChunkSize : Nat := 80 * 1024 * 1024

/-- Embedding of `UploadPart`: index, byte offset and size of one part. -/
structure UploadPart where
  index : Nat
  offset : Nat
  size : Nat
deriving DecidableEq, Repr

/-- Embedding of `UploadInfo` (the Redis-persisted session record;
`createdAt` is omitted — no verified property reads it).  Times are
Unix-seconds instants. -/
structure UploadInfo where
  uploadID : Str
  uploadToken : Str
  location : Str
  totalSize : Nat
  chunkSize : Nat
  partsCount : Nat
  parts : List UploadPart
  uploadedParts : List Int
  contentType : Str
  expiresAt : Int
deriving DecidableEq, Repr

/-- The part-table loop of `InitializeUpload`: `k` parts remaining, next
index `i`, accumulated byte offset; every part has size `chunkSize` except
the one with index `n - 1`, which takes the remainder. -/
def mkPartsFrom (total chunk n : Nat) : Nat → Nat → Nat → List UploadPart
  | 0, _, _ => []
  | k + 1, i, offset =>
    let size := if i = n - 1 then total - i * chunk else chunk
    ⟨i, offset, size⟩ :: mkPartsFrom total chunk n k (i + 1) (offset + size)

/-- Embedding of `RedisUploadTracker.InitializeUpload` (state computation:
the Redis write and the random token are environment effects; the token is
passed in).  `chunk0 = 0` models the non-positive chunk size that falls
back to the default. -/
def initializeUpload (uploadID uploadToken location : Str) (total chunk0 : Nat)
    (contentType : Str) (deadline : Int) : UploadInfo :=
  let chunk := if chunk0 = 0 then defaultChunkSize else chunk0
  let n := (total + chunk - 1) / chunk
  { uploadID := uploadID, uploadToken := uploadToken, location := location,
    totalSize := total, chunkSize := chunk, partsCount := n,
    parts := mkPartsFrom total chunk n n 0 0, uploadedParts := [],
    contentType := contentType, expiresAt := deadline }

/-- Embedding of `RedisUploadTracker.MarkPartUploaded` as a state transform
on the session record: invalid index errors; an index already present is a
no-op; otherwise the index is appended and written back unless the session
TTL has elapsed (then the write is not performed and the state is
unchanged). -/
def markPartUploaded (now : Int) (info : UploadInfo) (partIndex : Int) :
    Except Str UploadInfo :=
  if partIndex < 0 ∨ (info.partsCount : Int) ≤ partIndex then .error "invalid part index".data
  else if info.uploadedParts.contains partIndex then .ok info
  else if info.expiresAt - now ≤ 0 then .error "upload has expired".data
  else .ok { info with uploadedParts := info.uploadedParts ++ [partIndex] }

/-- Durable state after one `MarkPartUploaded` call: the new record on
success, the old one when the call errors (the Redis write then never
happened). -/
def applyMark (now : Int) (partIndex : Int) (info : UploadInfo) : UploadInfo :=
  match markPartUploaded now info partIndex with
  | .ok info2 => info2
  | .error _ => info

/-- Part object key of `handleMultipartUploadPart`:
`location + ".part" + index`. -/
def partLocation (location : Str) (partIndex : Int) : Str :=
  location ++ ".part".data ++ intToStr partIndex

/-- Raw query parameters of `handleMultipartUploadInit`. -/
structure MInitQuery where
  token : Str
  deadline : Str
  location : Str
  size : Str
  contentType : Str
  chunkSize : Str
deriving Repr

/-- Embedding of `videoMimeTypes` (validation package). -/
def videoMimeTypes : List Str :=
  ["video/mp4", "video/ogg", "video/webm", "video/quicktime", "video/x-msvideo",
    "video/x-matroska", "video/x-flv", "video/x-m4v", "video/x-m4v"].map String.data

/-- Embedding of `validation.IsVideoMime`. -/
def isVideoMime (mimeType : Str) : Bool :=
  videoMimeTypes.any (fun t => mimeType = t)

/-- Embedding of the admission pipeline of `handleMultipartUploadInit`
(`hasTracker` models a configured Redis tracker; the error value is the
HTTP status).  The `location` query parameter is read verbatim: it is
neither base64url-decoded nor passed through `sanitizeLocation`. -/
def handleMultipartInit (ext : Ext) (cfg : Config) (hasTracker : Bool) (now : Int)
    (q : MInitQuery) (uploadID uploadToken : Str) : Except Nat UploadInfo :=
  if ¬ cfg.uploadingEnabled = true then .error 403
  else if ¬ hasTracker = true then .error 503
  else if q.token = [] ∨ q.token ≠ cfg.token then .error 403
  else if q.deadline = [] then .error 400
  else
    match ext.parseDeadline q.deadline with
    | none => .error 400
    | some deadline =>
      if deadline < now then .error 403
      else if q.location = [] then .error 400
      else if q.size = [] then .error 400
      else
        match goSscanInt q.size with
        | none => .error 400
        | some totalSize =>
          if totalSize ≤ 0 then .error 400
          else if 0 < cfg.maxVideoSize ∧ cfg.maxVideoSize * 1024 * 1024 < totalSize then
            .error 413
          else if q.contentType = [] then .error 400
          else
            match ext.parseMediaType q.contentType with
            | none => .error 400
            | some parsedCT =>
              if ¬ isVideoMime parsedCT = true then .error 400
              else
                let chunk : Int :=
                  if cfg.chunkSize ≤ 0 then (defaultChunkSize : Int) else cfg.chunkSize
                let chunk2 : Int :=
                  if q.chunkSize ≠ [] then
                    match goSscanInt q.chunkSize with
                    | some c => if 0 < c then c else chunk
                    | none => chunk
                  else chunk
                .ok (initializeUpload uploadID uploadToken q.location
                  totalSize.toNat chunk2.toNat parsedCT deadline)

/-- External image pipeline of the video preview (ffmpeg frame extraction
and the resize/rescale/encode collaborators), over an abstract image type
`α`. -/
structure VideoExt (α : Type) where
  /-- `extractFrameFromPosition videoURL framePosition`. -/
  extract : Str → Str → α
  /-- `resizeImage img width height interpolation`. -/
  resizeIm : α → Int → Int → Int → α
  /-- `rescaleImage img scale`. -/
  rescaleIm : α → ℚ → α
  /-- `webp.Encode` with lossy quality. -/
  encodeWebp : α → Int → List Nat
  /-- `jpeg.Encode` with quality. -/
  encodeJpeg : α → Int → List Nat

/-- Cache identifier of `processVideoPreview`: the source URL if present,
else the custom object key. -/
def previewIdentifier (p : ImageContext) : Str :=
  if p.url = [] ∧ p.customObjectKey ≠ [] then p.customObjectKey else p.url

/-- Compute path of `processVideoPreview` on a cache miss over the HTTP
source: extract the frame at `framePosition`, resize if a dimension is
requested, rescale if a scale is requested, then encode WebP or JPEG at the
requested quality.  Returns the response body and content type — the value
stored into both caches under `cacheKey (previewIdentifier p) p`. -/
def previewOutput {α : Type} (vx : VideoExt α) (p : ImageContext) : List Nat × Str :=
  let img0 := vx.extract p.url p.framePosition
  let img1 :=
    if 0 < p.width ∨ 0 < p.height then vx.resizeIm img0 p.width p.height p.interpolation
    else img0
  let img2 := if 0 < p.scale then vx.rescaleIm img1 p.scale else img1
  if p.webp then (vx.encodeWebp img2 p.quality, "image/webp".data)
  else (vx.encodeJpeg img2 p.quality, "image/jpeg".data)

/-- Acceptance predicate of claim C2, written from the spec's words: length
between 1 and 512, no `..` run, no backslash, all characters in
`[A-Z a-z 0-9 / - _ .]`. -/
def c2SpecAccepts (loc : Str) : Prop :=
  1 ≤ loc.length ∧ loc.length ≤ 512 ∧ ¬ ['.', '.'] <:+: loc ∧ '\\' ∉ loc ∧
    ∀ c ∈ loc, allowedLocChar c = true

/-- Decidable equality for `Except` results, so that the embedded functions
can be evaluated at concrete requests. -/
instance {ε α : Type} [DecidableEq ε] [DecidableEq α] : DecidableEq (Except ε α)
  | .ok a, .ok b =>
    if h : a = b then .isTrue (by rw [h]) else .isFalse (by intro hh; cases hh; exact h rfl)
  | .error a, .error b =>
    if h : a = b then .isTrue (by rw [h]) else .isFalse (by intro hh; cases hh; exact h rfl)
  | .ok _, .error _ => .isFalse (by intro hh; cases hh)
  | .error _, .ok _ => .isFalse (by intro hh; cases hh)

/-! Concrete collaborator instances and inputs used to evaluate the
embedded functions at specific requests. -/

/-- Collaborator instance on which every external call fails or rejects.
Consistent with the real collaborators on the inputs it is applied to: in
particular Go's `net/url.Parse` does reject some strings (for example
`"%zz"`, an invalid percent-escape). -/
def extTriv : Ext :=
  { parseFloatQ := fun _ => none, b64decode := fun _ => none,
    hmacEq := fun _ _ _ => false, parseURL := fun _ => none,
    wildcardMatch := fun _ _ => false, parseMediaType := fun _ => none,
    parseDeadline := fun _ => none }

/-- Collaborator instance for read-path evaluation: the base64url decoder
yields the fixed source URL `http://example.com/v.mp4` (the valid encoding
of which is accepted by Go's decoder) and the URL parser accepts it with
scheme `http` and hostname `example.com`. -/
def extPrev : Ext :=
  { parseFloatQ := fun _ => none,
    b64decode := fun _ => some "http://example.com/v.mp4".data,
    hmacEq := fun _ _ _ => false,
    parseURL := fun _ => some { scheme := "http".data, hostname := "example.com".data },
    wildcardMatch := fun _ _ => false, parseMediaType := fun _ => none,
    parseDeadline := fun _ => none }

/-- Configuration with an empty allow-list and no HMAC key (read paths that
present no signature are admitted). -/
def cfgOpen : Config :=
  { hmacKey := [], token := [], webp := false, allowedOrigins := [],
    uploadingEnabled := false, maxVideoSize := 0, chunkSize := 0 }

/-- Configuration with uploading enabled but no HMAC key configured. -/
def cfgUploadNoKey : Config :=
  { hmacKey := [], token := [], webp := false, allowedOrigins := [],
    uploadingEnabled := true, maxVideoSize := 0, chunkSize := 0 }

/-- Admitted video-preview request `/videos/preview/fp:first/<b64(URL)>`. -/
def ctxPreviewFirst : ImageContext :=
  { url := "http://example.com/v.mp4".data, quality := 100, width := 0, height := 0,
    scale := 0, interpolation := 5, webp := false, framePosition := "first".data,
    hostname := [], customObjectKey := [] }

/-- The same admitted request with `fp:last` instead. -/
def ctxPreviewLast : ImageContext :=
  { ctxPreviewFirst with framePosition := "last".data }

/-- Frame pipeline on which the extracted frame depends on the requested
position (as ffmpeg's does for any video whose first and last frames
differ) and the encoders are injective on it. -/
def vxPositional : VideoExt Str :=
  { extract := fun _ pos => pos, resizeIm := fun a _ _ _ => a,
    rescaleIm := fun a _ => a, encodeWebp := fun s _ => s.map Char.toNat,
    encodeJpeg := fun s _ => s.map Char.toNat }

/-- Collaborator instance whose base64url decoder yields `".."` (the valid
encoding `Li4` decodes to it). -/
def extDotDot : Ext :=
  { extTriv with b64decode := fun _ => some "..".data }

/-- Configuration with an HMAC key configured. -/
def cfgSigned : Config :=
  { hmacKey := "k".data, token := [], webp := false, allowedOrigins := [],
    uploadingEnabled := false, maxVideoSize := 0, chunkSize := 0 }

/-- Query bag carrying only a source URL and a quality value. -/
def qbWith (qual : Str) : QueryBag :=
  { url := "u".data, signature := [], location := [], quality := qual,
    interpolation := [], width := [], height := [], scale := [], webp := [],
    framePosition := [] }

/-- Collaborator instance for multipart-init evaluation: deadline parsing
yields instant 100 and media types parse to themselves (as
`mime.ParseMediaType` does on a plain type such as `video/mp4`). -/
def extInit : Ext :=
  { extTriv with parseDeadline := fun _ => some 100, parseMediaType := fun s => some s }

/-- Configuration with uploading enabled and the app token `tok`. -/
def cfgUpload : Config :=
  { hmacKey := [], token := "tok".data, webp := false, allowedOrigins := [],
    uploadingEnabled := true, maxVideoSize := 0, chunkSize := 0 }

/-- Multipart-init query whose `location` contains a parent-traversal run
that `sanitizeLocation` rejects. -/
def qBad : MInitQuery :=
  { token := "tok".data, deadline := "100".data, location := "../../x".data,
    size := "5".data, contentType := "video/mp4".data, chunkSize := [] }

/-! Theorems. -/

/-- Bridge: `containsChar` is membership. -/
theorem containsChar_iff (t : Char) (s : Str) : containsChar t s = true ↔ t ∈ s := by
  simp only [containsChar, List.any_eq_true, decide_eq_true_eq]
  constructor
  · rintro ⟨x, hx, rfl⟩; exact hx
  · intro h; exact ⟨t, h, rfl⟩

/-- Bridge: `containsSeq` is contiguous-run containment. -/
theorem containsSeq_iff (pat : Str) (s : Str) : containsSeq pat s = true ↔ pat <:+: s := by
  induction s with
  | nil => simp [containsSeq, List.isEmpty_iff]
  | cons c cs ih =>
    simp [containsSeq, List.isPrefixOf_iff_prefix, ih, List.infix_cons_iff]

/-- Every character of the sanitizer's charset is a one-byte character. -/
theorem utf8Size_one_of_allowed (c : Char) (h : allowedLocChar c = true) :
    c.utf8Size = 1 := by
  have hb : ∀ d : Char, c ≤ d → c.val.toBitVec.toNat ≤ d.val.toBitVec.toNat := by
    intro d hd
    have := Char.le_def.mp hd
    rwa [UInt32.le_def, BitVec.le_def] at this
  simp only [allowedLocChar, Bool.or_eq_true, Bool.and_eq_true, decide_eq_true_eq] at h
  have hv : c.val.toBitVec.toNat ≤ 122 := by
    rcases h with ((((((⟨_, h⟩ | ⟨_, h⟩) | ⟨_, h⟩) | h) | h) | h) | h)
    · have := hb _ h
      have hz : ('z'.val.toBitVec).toNat = 122 := rfl
      omega
    · have := hb _ h
      have hz : ('Z'.val.toBitVec).toNat = 90 := rfl
      omega
    · have := hb _ h
      have hz : ('9'.val.toBitVec).toNat = 57 := rfl
      omega
    · subst h; decide
    · subst h; decide
    · subst h; decide
    · subst h; decide
  have h127 : c.val ≤ UInt32.ofNatCore 127 Char.utf8Size.proof_1 := by
    rw [UInt32.le_def, BitVec.le_def]
    have : (UInt32.ofNatCore 127 Char.utf8Size.proof_1).toBitVec.toNat = 127 := rfl
    omega
  unfold Char.utf8Size
  exact if_pos h127

/-- On charset-clean strings the Go byte length is the character count. -/
theorem goLen_of_allowed (s : Str) (h : ∀ c ∈ s, allowedLocChar c = true) :
    goLen s = s.length := by
  induction s with
  | nil => rfl
  | cons c cs ih =>
    have hc := utf8Size_one_of_allowed c (h c (by simp))
    have := ih (fun d hd => h d (by simp [hd]))
    simp [goLen, List.sum_cons, hc] at this ⊢
    omega

/-- The Go byte length vanishes only on the empty string. -/
theorem goLen_eq_zero_iff (s : Str) : goLen s = 0 ↔ s = [] := by
  cases s with
  | nil => simp [goLen]
  | cons c cs =>
    simp only [goLen, List.map_cons, List.sum_cons]
    have := Char.utf8Size_pos c
    constructor
    · intro h; omega
    · intro h; cases h

/-- Claim C2.  `sanitizeLocation` accepts a string iff its length is in
`[1, 512]`, it has no `..` run and no backslash, and every character is in
`[A-Z a-z 0-9 / - _ .]`; on acceptance it returns the input with leading
`/` stripped; and on rejection the path-form read admission fails with
status 400. -/
theorem c2_sanitize_location (loc : Str) :
    ((sanitizeLocation loc).isSome ↔ c2SpecAccepts loc) ∧
    (∀ res, sanitizeLocation loc = some res →
      res = loc.dropWhile (fun c => c = '/')) ∧
    (∀ ext cfg path params dec,
      parsePathParams ext path = some params → params.location ≠ [] →
      cfg.hmacKey ≠ [] → params.signature ≠ [] →
      ext.b64decode params.location = some dec → sanitizeLocation dec = none →
      processImageContextFromPath ext cfg path = .error 400) := by
  refine ⟨?_, ?_, ?_⟩
  · constructor
    · intro hsome
      have h1 : ¬ (goLen loc = 0 ∨ 512 < goLen loc) := by
        intro hc
        simp [sanitizeLocation, hc] at hsome
      have h2 : ¬ (containsSeq ['.', '.'] loc || containsChar '\\' loc) = true := by
        intro hc
        simp [sanitizeLocation, hc] at hsome
      have h3 : loc.all allowedLocChar = true := by
        by_contra hc
        simp [sanitizeLocation, hc] at hsome
      push_neg at h1
      simp only [Bool.or_eq_true, not_or] at h2
      have hall : ∀ c ∈ loc, allowedLocChar c = true := List.all_eq_true.mp h3
      have hlen : goLen loc = loc.length := goLen_of_allowed loc hall
      refine ⟨?_, ?_, ?_, ?_, hall⟩
      · have := h1.1
        rw [hlen] at this
        omega
      · have := h1.2
        rw [hlen] at this
        exact this
      · intro hinf
        exact h2.1 ((containsSeq_iff _ _).mpr hinf)
      · intro hmem
        exact h2.2 ((containsChar_iff _ _).mpr hmem)
    · rintro ⟨hl1, hl2, hinf, hbs, hall⟩
      have hlen : goLen loc = loc.length := goLen_of_allowed loc hall
      have g1 : ¬ (goLen loc = 0 ∨ 512 < goLen loc) := by
        rw [hlen]; omega
      have g2 : (containsSeq ['.', '.'] loc || containsChar '\\' loc) = false := by
        simp only [Bool.or_eq_false_iff]
        constructor
        · rw [Bool.eq_false_iff]
          intro hc
          exact hinf ((containsSeq_iff _ _).mp hc)
        · rw [Bool.eq_false_iff]
          intro hc
          exact hbs ((containsChar_iff _ _).mp hc)
      have g3 : loc.all allowedLocChar = true := List.all_eq_true.mpr hall
      simp [sanitizeLocation, g1, g2, g3]
  · intro res hres
    unfold sanitizeLocation at hres
    split at hres
    · cases hres
    · split at hres
      · cases hres
      · split at hres
        · cases hres
        · simp only [Option.some.injEq] at hres
          exact hres.symm
  · intro ext cfg path params dec hparse hloc hkey hsig hdec hsan
    unfold processImageContextFromPath
    rw [hparse]
    by_cases hurl : params.encodedURL = []
    · simp only [hurl, if_true, hloc, hkey, hsig, hdec, hsan, if_pos, if_neg]
      simp [hloc, hkey, hsig, hdec, hsan]
    · rcases hb : ext.b64decode params.encodedURL with _ | u
      · simp [hurl, hb]
      · simp [hurl, hb, hloc, hkey, hsig, hdec, hsan]

/-- Witness for claim C2 at concrete inputs: `//ab` sanitizes to `ab`, and a
signed request whose decoded location is `..` is rejected with 400. -/
theorem c2_witness :
    ("ab".data = "//ab".data.dropWhile (fun c => c = '/')) ∧
    processImageContextFromPath extDotDot cfgSigned "loc:AA/sig:ff".data = .error 400 :=
  ⟨(c2_sanitize_location "//ab".data).2.1 "ab".data (by decide),
   (c2_sanitize_location []).2.2 extDotDot cfgSigned "loc:AA/sig:ff".data
     { defaultPathParams with location := "AA".data, signature := "ff".data } "..".data
     (by decide) (by decide) (by decide) (by decide) (by decide) (by decide)⟩

/-- Length of the part-table loop output: one entry per remaining part. -/
theorem mkPartsFrom_length (total chunk n : Nat) :
    ∀ k i offset, (mkPartsFrom total chunk n k i offset).length = k := by
  intro k
  induction k with
  | zero => intro i offset; rfl
  | succ k ih => intro i offset; simp [mkPartsFrom, ih]

/-- Entries of the part-table loop when invoked as the source does (next
index `i`, offset `i * chunk`, `k` parts remaining out of `n`): entry `j`
has index `i + j`, offset `(i + j) * chunk`, and size `chunk` except for
the final index `n - 1`, which takes the remainder. -/
theorem mkPartsFrom_get (total chunk n : Nat) :
    ∀ k i, i + k = n → ∀ j, j < k →
      (mkPartsFrom total chunk n k i (i * chunk)).get? j =
        some ⟨i + j, (i + j) * chunk,
          if i + j = n - 1 then total - (n - 1) * chunk else chunk⟩ := by
  intro k
  induction k with
  | zero => intro i _ j hj; exact absurd hj (Nat.not_lt_zero j)
  | succ k ih =>
    intro i hik j hj
    by_cases hi : i = n - 1
    · have hk0 : k = 0 := by omega
      have hj0 : j = 0 := by omega
      subst hk0 hj0
      simp only [mkPartsFrom, List.get?]
      rw [if_pos hi]
      simp [hi]
    · cases j with
      | zero =>
        simp only [mkPartsFrom, List.get?]
        rw [if_neg hi]
        simp [hi]
      | succ j =>
        simp only [mkPartsFrom, List.get?]
        rw [if_neg hi]
        have hoff : i * chunk + chunk = (i + 1) * chunk := by ring
        rw [hoff]
        have := ih (i + 1) (by omega) j (by omega)
        rw [this]
        simp only [Option.some.injEq]
        have h1 : i + 1 + j = i + (j + 1) := by omega
        rw [h1]

/-- Sum of the part sizes produced by the loop: the bytes not yet covered by
the parts before index `i`. -/
theorem mkPartsFrom_sum (total chunk n : Nat) (hc : 0 < chunk)
    (htn : total ≤ n * chunk) (hn1 : (n - 1) * chunk < total) :
    ∀ k i, i + k = n →
      ((mkPartsFrom total chunk n k i (i * chunk)).map (fun p => p.size)).sum =
        total - i * chunk := by
  intro k
  induction k with
  | zero =>
    intro i hik
    have hi : i = n := by omega
    subst hi
    simp only [mkPartsFrom, List.map_nil, List.sum_nil]
    omega
  | succ k ih =>
    intro i hik
    by_cases hi : i = n - 1
    · have hk0 : k = 0 := by omega
      subst hk0
      simp [mkPartsFrom, hi]
    · have hlt : i + 1 ≤ n - 1 := by omega
      have hmul : (i + 1) * chunk ≤ (n - 1) * chunk := Nat.mul_le_mul_right chunk hlt
      have hle : (i + 1) * chunk ≤ total := le_of_lt (lt_of_le_of_lt hmul hn1)
      simp only [mkPartsFrom, List.map_cons, List.sum_cons]
      rw [if_neg hi]
      have hoff : i * chunk + chunk = (i + 1) * chunk := by ring
      rw [hoff, ih (i + 1) (by omega)]
      have hsucc : (i + 1) * chunk = i * chunk + chunk := by ring
      omega

/-- Claim C3.  For a session initialized with positive total and chunk
sizes, the part table has ceiling-many parts, part `i` sits at offset
`i * chunk` with size `chunk` except the last, which takes the remainder,
and the sizes sum to the total. -/
theorem c3_part_table (uploadID uploadToken location contentType : Str)
    (deadline : Int) (total chunk : Nat) (info : UploadInfo) (ht : 0 < total)
    (hc : 0 < chunk)
    (hinfo : info =
      initializeUpload uploadID uploadToken location total chunk contentType deadline) :
    info.chunkSize = chunk ∧
    info.partsCount = (total + chunk - 1) / chunk ∧
    total ≤ info.partsCount * chunk ∧
    (info.partsCount - 1) * chunk < total ∧
    info.parts.length = info.partsCount ∧
    (∀ i, i < info.partsCount → info.parts.get? i =
      some ⟨i, i * chunk,
        if i = info.partsCount - 1 then total - (info.partsCount - 1) * chunk
        else chunk⟩) ∧
    ((info.parts.map (fun p => p.size)).sum = total) := by
  have hchunk : (if chunk = 0 then defaultChunkSize else chunk) = chunk := by
    rw [if_neg (by omega)]
  subst hinfo
  simp only [initializeUpload, hchunk]
  set n := (total + chunk - 1) / chunk with hn
  have hA : total ≤ n * chunk := by
    have h1 : (total + chunk - 1) / chunk < n + 1 := by
      rw [← hn]; exact Nat.lt_succ_self n
    have h2 := (Nat.div_lt_iff_lt_mul hc).mp h1
    have h3 : (n + 1) * chunk = n * chunk + chunk := by ring
    omega
  have hB : (n - 1) * chunk < total := by
    have h1 : n * chunk ≤ total + chunk - 1 := by
      rw [hn]; exact Nat.div_mul_le_self (total + chunk - 1) chunk
    have h2 : (n - 1) * chunk = n * chunk - chunk := Nat.sub_one_mul n chunk
    omega
  have h0 : (0 : Nat) * chunk = 0 := by ring
  refine ⟨trivial, trivial, hA, hB, mkPartsFrom_length total chunk n n 0 0, ?_, ?_⟩
  · intro i hi
    have := mkPartsFrom_get total chunk n n 0 (by omega) i hi
    rw [h0] at this
    rw [this]
    simp
  · have := mkPartsFrom_sum total chunk n hc hA hB n 0 (by omega)
    rw [h0] at this
    rw [this]
    omega

/-- Witness for claim C3 at a concrete session: total 5, chunk 2 — the part
sizes sum to the total. -/
theorem c3_witness :
    (((initializeUpload [] [] [] 5 2 [] 0).parts.map (fun p => p.size)).sum = 5) :=
  (c3_part_table [] [] [] [] 0 5 2 (initializeUpload [] [] [] 5 2 [] 0)
    (by decide) (by decide) rfl).2.2.2.2.2.2

/-- Marking an index that is already in the uploaded set never changes the
durable session state (both the no-op branch and every error branch leave
the Redis record as it was). -/
theorem applyMark_of_mem (now : Int) (idx : Int) (info : UploadInfo)
    (hmem : idx ∈ info.uploadedParts) : applyMark now idx info = info := by
  unfold applyMark markPartUploaded
  by_cases hrange : idx < 0 ∨ (info.partsCount : Int) ≤ idx
  · rw [if_pos hrange]
  · rw [if_neg hrange]
    have hcont : info.uploadedParts.contains idx = true := List.elem_iff.mpr hmem
    rw [if_pos hcont]

/-- One successful mark of a valid index leaves it in the uploaded set with
multiplicity exactly one, provided it occurred at most once before. -/
theorem applyMark_count (now : Int) (idx : Int) (info : UploadInfo)
    (h0 : 0 ≤ idx) (h1 : idx < (info.partsCount : Int))
    (ht : now < info.expiresAt)
    (hc : info.uploadedParts.count idx ≤ 1) :
    (applyMark now idx info).uploadedParts.count idx = 1 := by
  unfold applyMark markPartUploaded
  rw [if_neg (by omega)]
  by_cases hcont : info.uploadedParts.contains idx = true
  · rw [if_pos hcont]
    show info.uploadedParts.count idx = 1
    have hmem : idx ∈ info.uploadedParts := List.elem_iff.mp hcont
    have := List.count_pos_iff.mpr hmem
    omega
  · rw [if_neg hcont, if_neg (by omega)]
    show (info.uploadedParts ++ [idx]).count idx = 1
    have hnmem : idx ∉ info.uploadedParts := fun hm => hcont (List.elem_iff.mpr hm)
    simp only [List.count_append, List.count_eq_zero.mpr hnmem, List.count_singleton]
    simp

/-- Claim C4.  Marking a part uploaded is idempotent: for every session with
a well-formed uploaded set, a valid index and an unexpired deadline,
applying the mark `N ≥ 1` times leaves the index in the set exactly once;
every successful mark preserves the no-duplicates invariant; and session
initialization establishes it with the empty set. -/
theorem c4_mark_part_idempotent :
    (∀ (now : Int) (info : UploadInfo) (idx : Int) (N : Nat),
      0 ≤ idx → idx < (info.partsCount : Int) → now < info.expiresAt →
      info.uploadedParts.Nodup → 1 ≤ N →
      ((applyMark now idx)^[N] info).uploadedParts.count idx = 1) ∧
    (∀ (now : Int) (info : UploadInfo) (idx : Int) (info2 : UploadInfo),
      info.uploadedParts.Nodup → markPartUploaded now info idx = .ok info2 →
      info2.uploadedParts.Nodup) ∧
    (∀ uploadID uploadToken location total chunk ct deadline,
      (initializeUpload uploadID uploadToken location total chunk ct deadline).uploadedParts
        = []) := by
  refine ⟨?_, ?_, ?_⟩
  · intro now info idx N h0 h1 ht hnd hN
    obtain ⟨m, rfl⟩ : ∃ m, N = m + 1 := ⟨N - 1, by omega⟩
    have hone : (applyMark now idx info).uploadedParts.count idx = 1 :=
      applyMark_count now idx info h0 h1 ht (List.nodup_iff_count_le_one.mp hnd idx)
    have hfix : ∀ k st, idx ∈ st.uploadedParts → (applyMark now idx)^[k] st = st := by
      intro k
      induction k with
      | zero => intro st _; rfl
      | succ k ih =>
        intro st hmem
        rw [Function.iterate_succ_apply, applyMark_of_mem now idx st hmem, ih st hmem]
    rw [Function.iterate_succ_apply]
    rw [hfix m (applyMark now idx info)
      (List.count_pos_iff.mp (by omega))]
    exact hone
  · intro now info idx info2 hnd hok
    unfold markPartUploaded at hok
    by_cases hrange : idx < 0 ∨ (info.partsCount : Int) ≤ idx
    · rw [if_pos hrange] at hok; cases hok
    · rw [if_neg hrange] at hok
      by_cases hcont : info.uploadedParts.contains idx = true
      · rw [if_pos hcont] at hok
        cases hok
        exact hnd
      · rw [if_neg hcont] at hok
        by_cases httl : info.expiresAt - now ≤ 0
        · rw [if_pos httl] at hok; cases hok
        · rw [if_neg httl] at hok
          cases hok
          have hnmem : idx ∉ info.uploadedParts := fun hm => hcont (List.elem_iff.mpr hm)
          show (info.uploadedParts ++ [idx]).Nodup
          simp only [List.nodup_append, List.nodup_cons, List.nodup_nil]
          refine ⟨hnd, by simp, ?_⟩
          intro a ha hb
          simp only [List.mem_singleton] at hb
          subst hb
          exact hnmem ha
  · intro uploadID uploadToken location total chunk ct deadline
    rfl

/-- Witness for claim C4: marking part 1 twice on a fresh 3-part session
leaves it uploaded exactly once. -/
theorem c4_witness :
    ((applyMark 0 1)^[2] (initializeUpload [] [] [] 5 2 [] 10)).uploadedParts.count 1
      = 1 :=
  c4_mark_part_idempotent.1 0 (initializeUpload [] [] [] 5 2 [] 10) 1 2
    (by decide) (by decide) (by decide) (by decide) (by decide)

/-- Claim C9 as amended: validation allows a URL iff it parses and either
the allow-list is empty, or the scheme is http/https and the hostname
matches an entry exactly or glob-matches a wildcard entry; an unparsable
URL is always denied (also when the list is empty); the returned hostname
is the parsed hostname on a non-empty-list allow and empty otherwise. -/
theorem c9_origin_validation (ext : Ext) (urlStr : Str) (origins : List Str) :
    ((validateUrl ext urlStr origins).1 = true ↔
      ∃ u, ext.parseURL urlStr = some u ∧
        (origins = [] ∨
          ((u.scheme = "http".data ∨ u.scheme = "https".data) ∧
            (u.hostname ∈ origins ∨
              ∃ o ∈ origins,
                containsChar '*' o = true ∧ ext.wildcardMatch o u.hostname = true)))) ∧
    (ext.parseURL urlStr = none → validateUrl ext urlStr origins = (false, [])) ∧
    (∀ u, ext.parseURL urlStr = some u → origins = [] →
      validateUrl ext urlStr origins = (true, [])) ∧
    (∀ u, ext.parseURL urlStr = some u → origins ≠ [] →
      (validateUrl ext urlStr origins).1 = true →
      (validateUrl ext urlStr origins).2 = u.hostname) := by
  rcases hparse : ext.parseURL urlStr with _ | u
  · simp only [validateUrl, hparse]
    refine ⟨?_, fun _ => trivial, ?_, ?_⟩
    · constructor
      · intro h; cases h
      · rintro ⟨u, hu, _⟩; cases hu
    · intro u hu; cases hu
    · intro u hu; cases hu
  · simp only [validateUrl, hparse]
    have hsome : ∀ u2 : UrlParts, some u = some u2 ↔ u2 = u := by
      intro u2
      constructor
      · intro h; cases h; rfl
      · intro h; rw [h]
    by_cases ho : origins = []
    · subst ho
      refine ⟨?_, ?_, ?_, ?_⟩
      · constructor
        · intro _; exact ⟨u, rfl, Or.inl rfl⟩
        · intro _; rfl
      · intro h; cases h
      · intro u2 _ _; rfl
      · intro u2 _ habs; exact absurd rfl habs
    · unfold validateHostname
      rw [if_neg ho]
      by_cases hs : u.scheme ≠ "http".data ∧ u.scheme ≠ "https".data
      · rw [if_pos hs]
        refine ⟨?_, ?_, ?_, ?_⟩
        · constructor
          · intro h; cases h
          · rintro ⟨u2, hu2, h⟩
            rw [hsome u2] at hu2
            subst hu2
            rcases h with h | ⟨hsch, _⟩
            · exact absurd h ho
            · rcases hsch with h | h
              · exact absurd h hs.1
              · exact absurd h hs.2
        · intro h; cases h
        · intro u2 _ h; exact absurd h ho
        · intro u2 _ _ h; cases h
      · rw [if_neg hs]
        have hscheme : u.scheme = "http".data ∨ u.scheme = "https".data := by
          rcases not_and_or.mp hs with h | h
          · exact Or.inl (not_not.mp h)
          · exact Or.inr (not_not.mp h)
        by_cases hex : origins.any (fun o => o = u.hostname) = true
        · rw [if_pos hex]
          have hmem : u.hostname ∈ origins := by
            rcases List.any_eq_true.mp hex with ⟨o, hoin, hoe⟩
            rw [decide_eq_true_eq] at hoe
            rw [← hoe]
            exact hoin
          refine ⟨?_, ?_, ?_, ?_⟩
          · constructor
            · intro _; exact ⟨u, rfl, Or.inr ⟨hscheme, Or.inl hmem⟩⟩
            · intro _; rfl
          · intro h; cases h
          · intro u2 _ h; exact absurd h ho
          · intro u2 hu2 _ _
            rw [hsome u2] at hu2
            rw [hu2]
        · rw [if_neg hex]
          by_cases hwc :
              origins.any (fun o => containsChar '*' o && ext.wildcardMatch o u.hostname)
                = true
          · rw [if_pos hwc]
            have hw : ∃ o ∈ origins,
                containsChar '*' o = true ∧ ext.wildcardMatch o u.hostname = true := by
              rcases List.any_eq_true.mp hwc with ⟨o, hoin, hoe⟩
              rw [Bool.and_eq_true] at hoe
              exact ⟨o, hoin, hoe.1, hoe.2⟩
            refine ⟨?_, ?_, ?_, ?_⟩
            · constructor
              · intro _; exact ⟨u, rfl, Or.inr ⟨hscheme, Or.inr hw⟩⟩
              · intro _; rfl
            · intro h; cases h
            · intro u2 _ h; exact absurd h ho
            · intro u2 hu2 _ _
              rw [hsome u2] at hu2
              rw [hu2]
          · rw [if_neg hwc]
            refine ⟨?_, ?_, ?_, ?_⟩
            · constructor
              · intro h; cases h
              · rintro ⟨u2, hu2, h⟩
                rw [hsome u2] at hu2
                subst hu2
                rcases h with h | ⟨_, hm | ⟨o, hoin, hc, hwm⟩⟩
                · exact absurd h ho
                · refine absurd ?_ hex
                  exact List.any_eq_true.mpr ⟨_, hm, by simp⟩
                · refine absurd ?_ hwc
                  exact List.any_eq_true.mpr ⟨o, hoin, by rw [Bool.and_eq_true]; exact ⟨hc, hwm⟩⟩
            · intro h; cases h
            · intro u2 _ h; exact absurd h ho
            · intro u2 _ _ h; cases h

/-- Witness for claim C9 (amended) at concrete inputs: the empty allow-list
admits with empty hostname, and an exact-match allow returns the parsed
hostname. -/
theorem c9_witness :
    validateUrl extPrev "u".data [] = (true, []) ∧
    (validateUrl extPrev "u".data ["example.com".data]).2 = "example.com".data :=
  ⟨(c9_origin_validation extPrev "u".data []).2.2.1
      { scheme := "http".data, hostname := "example.com".data } rfl rfl,
   (c9_origin_validation extPrev "u".data ["example.com".data]).2.2.2
      { scheme := "http".data, hostname := "example.com".data } rfl (by decide) (by decide)⟩

/-- Claim C10: for every multipart-init request with a valid token, future
deadline, positive in-limit size and a video content type, the `location`
query parameter — any nonempty string whatsoever — is accepted and
persisted in the session verbatim (no base64url decoding, no
`sanitizeLocation`), and the derived part keys are
`location + ".part" + index`; the location `../../x`, which
`sanitizeLocation` rejects on the single-shot and read paths, is such a
value. -/
theorem c10_init_location_verbatim :
    (∀ (ext : Ext) (cfg : Config) (hasTracker : Bool) (now : Int) (q : MInitQuery)
      (uploadID uploadToken : Str) (dl ts : Int) (pct : Str),
      cfg.uploadingEnabled = true → hasTracker = true →
      q.token ≠ [] → q.token = cfg.token →
      q.deadline ≠ [] → ext.parseDeadline q.deadline = some dl → now ≤ dl →
      q.location ≠ [] → q.size ≠ [] → goSscanInt q.size = some ts → 0 < ts →
      (cfg.maxVideoSize ≤ 0 ∨ ts ≤ cfg.maxVideoSize * 1024 * 1024) →
      q.contentType ≠ [] → ext.parseMediaType q.contentType = some pct →
      isVideoMime pct = true →
      ∃ info, handleMultipartInit ext cfg hasTracker now q uploadID uploadToken = .ok info ∧
        info.location = q.location ∧
        ∀ i : Int, partLocation info.location i =
          q.location ++ ".part".data ++ intToStr i) ∧
    sanitizeLocation "../../x".data = none := by
  constructor
  · intro ext cfg hasTracker now q uploadID uploadToken dl ts pct
    intro hup htr htok htokeq hdl hdlp hnow hloc hsz hszp hts hmax hct hctp hvm
    have htk : ¬ (q.token = [] ∨ q.token ≠ cfg.token) := by
      push_neg
      exact ⟨htok, htokeq⟩
    have hnotdl : ¬ dl < now := by omega
    have hts2 : ¬ ts ≤ 0 := by omega
    have hmax2 : ¬ (0 < cfg.maxVideoSize ∧ cfg.maxVideoSize * 1024 * 1024 < ts) := by
      rcases hmax with h | h <;> omega
    unfold handleMultipartInit
    rw [if_neg (show ¬ ¬ cfg.uploadingEnabled = true by simp [hup])]
    rw [if_neg (show ¬ ¬ hasTracker = true by simp [htr])]
    rw [if_neg htk]
    rw [if_neg hdl]
    simp only [hdlp]
    rw [if_neg hnotdl]
    rw [if_neg hloc]
    rw [if_neg hsz]
    simp only [hszp]
    rw [if_neg hts2]
    rw [if_neg hmax2]
    rw [if_neg hct]
    simp only [hctp]
    rw [if_neg (show ¬ ¬ isVideoMime pct = true by simp [hvm])]
    exact ⟨_, rfl, rfl, fun i => rfl⟩
  · decide

/-- Witness for claim C10 at a concrete init request whose location is
`../../x`: the request is accepted and the session stores that location
verbatim. -/
theorem c10_witness :
    ∃ info,
      handleMultipartInit extInit cfgUpload true 0 qBad "id".data "tk".data = .ok info ∧
      info.location = qBad.location ∧
      ∀ i : Int, partLocation info.location i =
        qBad.location ++ ".part".data ++ intToStr i :=
  c10_init_location_verbatim.1 extInit cfgUpload true 0 qBad "id".data "tk".data
    100 5 "video/mp4".data rfl rfl (by decide) rfl (by decide) rfl (by decide)
    (by decide) (by decide) rfl (by decide) (by decide) (by decide) rfl (by decide)

/-- Claim C1.  The code violates the fingerprint determinism invariant: the
two path-form requests `fp:first/<b64>` and `fp:last/<b64>` are both
admitted, yield contexts whose fingerprints (`cacheKey` of the preview
identifier) are equal character for character — `framePosition` is not part
of the fingerprint — yet the video-preview compute path produces different
output bytes whenever the extractor distinguishes the first and last frame.
The in-memory and object-store caches are keyed by this fingerprint, so the
second request is even served the first request's bytes. -/
theorem c1_same_fingerprint_different_output :
    processImageContextFromPath extPrev cfgOpen "fp:first/x".data = .ok ctxPreviewFirst ∧
    processImageContextFromPath extPrev cfgOpen "fp:last/x".data = .ok ctxPreviewLast ∧
    cacheKey (previewIdentifier ctxPreviewFirst) ctxPreviewFirst =
      cacheKey (previewIdentifier ctxPreviewLast) ctxPreviewLast ∧
    previewOutput vxPositional ctxPreviewFirst ≠ previewOutput vxPositional ctxPreviewLast := by
  refine ⟨by decide, by decide, rfl, by decide⟩

/-- Helper for claim C6: on any 10000-byte object, the suffix range
`bytes=-512` yields a 206 whose headers advertise the last 512 bytes while
the streamed body is the whole object. -/
theorem c6Aux (obj : List Nat) (hlen : obj.length = 10000) :
    processVideoProxyS3 obj true "bytes=-512".data =
      { status := 206, contentLength := some 512,
        contentRange := some "bytes 9488-9999/10000".data, body := obj } := by
  have hp : parseRangeHeader "bytes=-512".data = .ok (-512, -1, true) := by decide
  have hs : streamFor obj (-512) (-1) true = obj := by norm_num [streamFor]
  have hcr : contentRangeStr 9488 9999 10000 = "bytes 9488-9999/10000".data := by decide
  have hne : ¬ ("bytes=-512".data = ([] : Str)) := by decide
  simp only [processVideoProxyS3, hp, hs, hlen, hcr]
  norm_num [hne]
  exact hcr

/-- Claim C6.  Code bug at the failing input: object size 10000, request
`Range: bytes=-512`.  The response advertises 206 with Content-Length 512
and Content-Range `bytes 9488-9999/10000` as the claim says, but the body
is the entire 10000-byte object streamed from offset 0 (the source never
applies the suffix range to the object-store GET), so the body length does
not equal the advertised Content-Length and the body is not the last 512
bytes. -/
theorem c6_suffix_range_streams_whole_object :
    (processVideoProxyS3 (List.range 10000) true "bytes=-512".data).status = 206 ∧
    (processVideoProxyS3 (List.range 10000) true "bytes=-512".data).contentLength = some 512 ∧
    (processVideoProxyS3 (List.range 10000) true "bytes=-512".data).contentRange =
      some "bytes 9488-9999/10000".data ∧
    (processVideoProxyS3 (List.range 10000) true "bytes=-512".data).body.length = 10000 ∧
    (processVideoProxyS3 (List.range 10000) true "bytes=-512".data).body ≠
      (List.range 10000).drop 9488 := by
  have h := c6Aux (List.range 10000) (by simp)
  rw [h]
  refine ⟨rfl, rfl, rfl, by simp, ?_⟩
  intro hcontra
  have : ((List.range 10000).drop 9488).length = 10000 := by
    rw [← hcontra]; simp
  simp at this

/-- Claim C5, counterexample: on an object-store-backed proxy request with
`Range: bytes=0-1,5-9` (multiple ranges), the embedded handler responds
416, not 400. -/
theorem c5_counterexample :
    (processVideoProxyS3 [0, 1, 2] true "bytes=0-1,5-9".data).status = 416 ∧
    (processVideoProxyS3 [0, 1, 2] true "bytes=0-1,5-9".data).status ≠ 400 := by
  decide

/-- Claim C7, counterexample: with uploading enabled and an empty HMAC key,
the signed single-shot video upload admission fails with status 500, not
403. -/
theorem c7_counterexample :
    validateVideoUpload extTriv cfgUploadNoKey 0 "9999999999".data "bG9j".data "ab".data
      = .error 500 ∧ (500 : Nat) ≠ 403 := by
  decide

/-- Claim C8, counterexample: in the path form, `q:0` is not rejected at
admission — the out-of-range value is silently dropped by the parser and
the request is admitted with the default quality 100. -/
theorem c8_counterexample :
    processImageContextFromPath extPrev cfgOpen "q:0/x".data = .ok ctxPreviewFirst ∧
    ctxPreviewFirst.quality = 100 := by
  decide

/-- Claim C5 as amended: on an object-store-backed proxy request, a Range
header with multiple ranges (a comma in the byte-range specifier) fails
with 416, not 400.  (On the HTTP-origin branch the source forwards the
header upstream verbatim instead.) -/
theorem c5_multi_range_416 (obj : List Nat) (statOk : Bool) (h : Str)
    (hpre : "bytes=".data.isPrefixOf h = true)
    (hcomma : containsChar ',' (h.drop 6) = true) :
    (processVideoProxyS3 obj statOk h).status = 416 := by
  have hne : h ≠ [] := by
    intro h0
    subst h0
    cases hpre
  have hperr : parseRangeHeader h = .error () := by
    simp [parseRangeHeader, hne, hpre, hcomma]
  simp [processVideoProxyS3, hperr]

/-- Witness for claim C5 (amended) at a concrete request. -/
theorem c5_witness :
    (processVideoProxyS3 [0] true "bytes=1-2,3-4".data).status = 416 :=
  c5_multi_range_416 [0] true "bytes=1-2,3-4".data (by decide) (by decide)

/-- Claim C7 as amended: when a signature is required and the configured
HMAC key is empty, the read-path admissions fail with 403 (both the
custom-location case and the plain signed-URL case), while the single-shot
video upload admission fails with 500. -/
theorem c7_missing_hmac_key :
    (∀ (ext : Ext) (cfg : Config) (path : Str) (params : PathParams),
      parsePathParams ext path = some params →
      (params.encodedURL = [] ∨ (ext.b64decode params.encodedURL).isSome) →
      params.location ≠ [] → cfg.hmacKey = [] →
      processImageContextFromPath ext cfg path = .error 403) ∧
    (∀ (ext : Ext) (cfg : Config) (path : Str) (params : PathParams),
      parsePathParams ext path = some params →
      (params.encodedURL = [] ∨ (ext.b64decode params.encodedURL).isSome) →
      params.location = [] → params.signature ≠ [] → cfg.hmacKey = [] →
      processImageContextFromPath ext cfg path = .error 403) ∧
    (∀ (ext : Ext) (cfg : Config) (now : Int) (deadlineStr locEnc sig : Str),
      cfg.uploadingEnabled = true → cfg.hmacKey = [] →
      validateVideoUpload ext cfg now deadlineStr locEnc sig = .error 500) := by
  refine ⟨?_, ?_, ?_⟩
  · intro ext cfg path params hparse hdec hloc hkey
    unfold processImageContextFromPath
    rw [hparse]
    rcases hdec with h0 | hsome
    · simp [h0, hloc, hkey]
    · rcases hb : ext.b64decode params.encodedURL with _ | u
      · rw [hb] at hsome; cases hsome
      · by_cases hurl : params.encodedURL = []
        · simp [hurl, hloc, hkey]
        · simp [hurl, hb, hloc, hkey]
  · intro ext cfg path params hparse hdec hloc hsig hkey
    unfold processImageContextFromPath
    rw [hparse]
    rcases hdec with h0 | hsome
    · simp [h0, hloc, hsig, hkey]
    · rcases hb : ext.b64decode params.encodedURL with _ | u
      · rw [hb] at hsome; cases hsome
      · by_cases hurl : params.encodedURL = []
        · simp [hurl, hloc, hsig, hkey]
        · simp [hurl, hb, hloc, hsig, hkey]
  · intro ext cfg now deadlineStr locEnc sig hup hkey
    simp [validateVideoUpload, hup, hkey]

/-- Witness for claim C7 (amended) at concrete requests. -/
theorem c7_witness :
    processImageContextFromPath extDotDot cfgOpen "loc:AA/sig:ff".data = .error 403 ∧
    validateVideoUpload extTriv cfgUploadNoKey 5 "1".data [] [] = .error 500 :=
  ⟨c7_missing_hmac_key.1 extDotDot cfgOpen "loc:AA/sig:ff".data
      { defaultPathParams with location := "AA".data, signature := "ff".data }
      (by decide) (Or.inl (by decide)) (by decide) rfl,
   c7_missing_hmac_key.2.2 extTriv cfgUploadNoKey 5 "1".data [] [] rfl rfl⟩

/-- The path-form parameter loop keeps quality in `[1, 100]`: the only
assignment to it is guarded by that range. -/
theorem applyPart_quality (ext : Ext) (p : PathParams) (part : Str)
    (h : 1 ≤ p.quality ∧ p.quality ≤ 100) :
    1 ≤ (applyPart ext p part).quality ∧ (applyPart ext p part).quality ≤ 100 := by
  obtain ⟨h1, h2⟩ := h
  by_cases hw : part = "webp".data
  · simp only [applyPart, if_pos hw]
    exact ⟨h1, h2⟩
  · by_cases hc : ¬ containsChar ':' part = true
    · simp only [applyPart, if_neg hw, if_pos hc]
      exact ⟨h1, h2⟩
    · rcases hsf : splitFirst ':' part with _ | ⟨key, value⟩
      · simp only [applyPart, if_neg hw, if_neg hc, hsf]
        exact ⟨h1, h2⟩
      · simp only [applyPart, if_neg hw, if_neg hc, hsf]
        repeat' split
        all_goals first
          | exact ⟨h1, h2⟩
          | assumption

/-- The invariant of `applyPart_quality` carried through the whole
parameter loop. -/
theorem foldl_applyPart_quality (ext : Ext) (l : List Str) :
    ∀ p : PathParams, 1 ≤ p.quality ∧ p.quality ≤ 100 →
      1 ≤ (l.foldl (applyPart ext) p).quality ∧
        (l.foldl (applyPart ext) p).quality ≤ 100 := by
  induction l with
  | nil => intro p h; exact h
  | cons a l ih =>
    intro p h
    rw [List.foldl_cons]
    exact ih (applyPart ext p a) (applyPart_quality ext p a h)

/-- Claim C8 as amended: quality 1 and 100 are accepted in both parameter
forms; `quality=0` and `quality=101` are rejected with 400 in the query
form; in the path form an out-of-range quality is silently dropped, the
parsed quality always lies in `[1, 100]` (so path-form admission never
rejects on quality), and the defaults apply. -/
theorem c8_quality_boundaries :
    (∀ (ext : Ext) (path : Str) (params : PathParams),
      parsePathParams ext path = some params →
      1 ≤ params.quality ∧ params.quality ≤ 100) ∧
    (parsePathParams extTriv "q:1/u".data =
        some { defaultPathParams with quality := 1, encodedURL := "u".data } ∧
      parsePathParams extTriv "q:100/u".data =
        some { defaultPathParams with quality := 100, encodedURL := "u".data }) ∧
    (∀ (ext : Ext) (cfg : Config) (q : QueryBag) (v : Int),
      q.url ≠ [] → q.location = [] → q.signature = [] →
      (validateUrl ext q.url cfg.allowedOrigins).1 = true →
      goParseInt q.quality = some v → (v < 1 ∨ 100 < v) →
      processImageContext ext cfg q = .error 400) ∧
    ((processImageContext extPrev cfgOpen (qbWith "1".data)).map (fun c => c.quality)
        = .ok 1 ∧
      (processImageContext extPrev cfgOpen (qbWith "100".data)).map (fun c => c.quality)
        = .ok 100 ∧
      processImageContext extPrev cfgOpen (qbWith "0".data) = .error 400 ∧
      processImageContext extPrev cfgOpen (qbWith "101".data) = .error 400) := by
  refine ⟨?_, ⟨by decide, by decide⟩, ?_, ⟨by decide, by decide, by decide, by decide⟩⟩
  · intro ext path params hp
    simp only [parsePathParams] at hp
    rcases hgl : (goSplit '/' (goTrim '/' path)).getLast? with _ | lastPart
    · simp only [hgl] at hp
      cases hp
    · simp only [hgl] at hp
      have hinit : (1 : Int) ≤ 100 ∧ (100 : Int) ≤ 100 := by norm_num
      by_cases hc : ¬ containsChar ':' lastPart = true ∧ lastPart ≠ "webp".data
      · rw [if_pos hc] at hp
        simp only [Option.some.injEq] at hp
        subst hp
        exact foldl_applyPart_quality ext _ _ hinit
      · rw [if_neg hc] at hp
        simp only [Option.some.injEq] at hp
        subst hp
        exact foldl_applyPart_quality ext _ _ hinit
  · intro ext cfg q v hurl hloc hsig hval hq hrange
    unfold processImageContext
    rw [if_neg hurl]
    simp only [hloc, hsig]
    simp only [ne_eq, not_true_eq_false, if_false, ite_not]
    simp only [hval]
    have hquality : queryInt q.quality 100 = v := by
      simp [queryInt, hq]
    simp [hquality, hrange]

/-- Witness for claim C8 (amended): the path-form quality of any parse is in
range. -/
theorem c8_witness :
    1 ≤ (match parsePathParams extTriv "q:7/u".data with
      | some p => p.quality
      | none => 1) := by
  have h := c8_quality_boundaries.1 extTriv "q:7/u".data
  rcases hp : parsePathParams extTriv "q:7/u".data with _ | params
  · norm_num
  · exact (h params hp).1

/-- Claim C9, counterexample: on a collaborator instance whose URL parser
rejects the given input (as Go's `net/url.Parse` rejects `"%zz"`), the
claim's own if-and-only-if fails for the empty allow-list: the claim admits
the request because the list is empty, while the code denies every
unparsable URL first. -/
theorem c9_counterexample : ¬ c9Claim extTriv := by
  intro h
  have h1 := (h "%zz".data []).1
  have h2 : (validateUrl extTriv "%zz".data []).1 = true := h1.mpr (Or.inl rfl)
  have h3 : (validateUrl extTriv "%zz".data []).1 = false := rfl
  rw [h2] at h3
  exact Bool.noConfusion h3

end MediaProxy
